import Mathlib

/-!
Verification of the watch-filtering and mirror-synchronization layer of
`jupyterlab/staging/webpack.config.js`.

The embedding models:
* the path classifier `ignored` with its module-level `ignoreCache` and the
  `watched` root table (built from `jlab.watchedPackages`);
* `maybeSync`, the mirror-registration side effect (`fs.statSync`,
  `fs.realpathSync`, `fs.watchFile`), including the exceptions the `fs`
  primitives throw on missing paths;
* the `fs.watchFile` poll callback (one mirror tick);
* `FilterIgnoringWatchFileSystem.watch`: the partitioning of `files`/`dirs`,
  the wrapped completion callback, and the returned handle's timestamp
  accessors with their sentinel overlay;
* `FrontEndPlugin`'s `afterEmit` hook over a flat file-system model.

Filesystem primitives (`statSync`, `realpathSync`, `copySync`, `removeSync`,
`existsSync`, `watchFile`) are external `fs-extra`/Node collaborators; they
are modelled by explicit fields/operations with their documented semantics.
Paths are restricted to absolute, already-normalized POSIX paths, on which
`path.resolve` is the identity and `path.sep` is `/`.
-/

set_option autoImplicit false

namespace Webpack

/-- Lookup in an association list by key (first occurrence wins), the
behaviour of reading a JS object property / `Map.get`. -/
def lookupS {κ α : Type} [DecidableEq κ] : List (κ × α) → κ → Option α
  | [], _ => none
  | (k, v) :: rest, key => if k = key then some v else lookupS rest key

/-- Update an association list at a key (replace the first occurrence, else
append), the behaviour of writing a JS object property / `Map.set`. -/
def mapSet {κ α : Type} [DecidableEq κ] : List (κ × α) → κ → α → List (κ × α)
  | [], key, v => [(key, v)]
  | (k, w) :: rest, key, v =>
      if k = key then (key, v) :: rest else (k, w) :: mapSet rest key v

/-- Substring test on character lists: does `pat` occur contiguously? -/
def hasSubList (pat : List Char) : List Char → Bool
  | [] => pat.isEmpty
  | c :: t => pat.isPrefixOf (c :: t) || hasSubList pat t

/-- JS `s.indexOf(pat) !== -1`: `pat` occurs as a contiguous substring of
`s`. -/
def hasSub (s pat : String) : Bool :=
  hasSubList pat.toList s.toList

/-- Split a path into its `/`-separated segments (accumulator holds the
current segment reversed). -/
def splitSegsAux (cur : List Char) : List Char → List String
  | [] => [String.mk cur.reverse]
  | c :: t =>
      if c = '/' then String.mk cur.reverse :: splitSegsAux [] t
      else splitSegsAux (c :: cur) t

/-- The `/`-separated segments of a path. -/
def pathSegs (p : String) : List String :=
  splitSegsAux [] p.toList

/-- Node `path.resolve` on an already-absolute, normalized path: the
identity.  The embedding restricts paths to that form. -/
def presolve (p : String) : String := p

/-- Prefix test on strings via their character lists (the kernel-reducible
counterpart of `String.startsWith`). -/
def startsWithS (s pre : String) : Bool :=
  pre.toList.isPrefixOf s.toList

/-- Node `path.join` for our restricted path language: insert a `/` unless
the second component already starts with one (`join` collapses the
duplicate separator). -/
def pjoin (a b : String) : String :=
  if startsWithS b "/" then a ++ b else a ++ "/" ++ b

deriving instance DecidableEq for Except

/-- A `fs.Stats` record: whether the node is a regular file, and its
hard-link count (`nlink`). -/
structure FStat where
  isFile : Bool
  nlink : Nat
  deriving DecidableEq, Repr

/-- The filesystem as seen by the mirror-sync code: `stat` models
`fs.statSync` (`none` = the path does not exist, so `statSync` throws),
`realpath` models `fs.realpathSync` (`none` = throws), `content` is the
byte content of regular files (`none` = absent, so `copySync` throws). -/
structure FS where
  stat : String → Option FStat
  realpath : String → Option String
  content : String → Option String

/-- The configuration the module reads at startup: `roots` is the `watched`
table (package name, local root path) in `Object.keys` insertion order;
`watchedPackages` is `jlab.watchedPackages`, mapping a package name to its
external source directory. -/
structure Config where
  roots : List (String × String)
  watchedPackages : String → String

/-- The module-level mutable state: `ignoreCache` and the list of
`fs.watchFile` registrations (source path, local destination path), one per
mirror task in order of creation. -/
structure ClassifierState where
  ignoreCache : List (String × Bool)
  watchers : List (String × String)
  deriving DecidableEq, Repr

/-- The empty startup state: no cache entries, no mirror tasks. -/
def st0 : ClassifierState := ⟨[], []⟩

/-- Embedding of `maybeSync(localPath, name, rest)`.  `.error ()` models a
thrown exception (from `fs.statSync` or `fs.realpathSync` on a missing
path); every throw happens before the `fs.watchFile` registration, so an
error leaves the module state unchanged. -/
def maybeSync (fs : FS) (cfg : Config) (localPath nm rest : String)
    (st : ClassifierState) : Except Unit ClassifierState :=
  match fs.stat localPath with
  | none => .error ()
  | some stats =>
      if !stats.isFile then .ok st
      else
        match fs.realpath (pjoin (cfg.watchedPackages nm) rest) with
        | none => .error ()
        | some source =>
            match fs.realpath localPath with
            | none => .error ()
            | some lp =>
                if source = lp then .ok st
                else .ok { st with watchers := st.watchers ++ [(source, localPath)] }

/-- Embedding of the `Object.keys(watched).some(name => ...)` loop inside
`ignored`: scan the roots in order; a root is tried when `path === rootPath`
or `path.indexOf(rootPath + sep) !== -1` (a substring test); on a match the
suffix `path.slice(rootPath.length)` is checked for the substring
`node_modules`, and `maybeSync` runs when it is absent. -/
def scanRoots (fs : FS) (cfg : Config) (path : String) :
    List (String × String) → ClassifierState → Except Unit (Bool × ClassifierState)
  | [], st => .ok (true, st)
  | (nm, rootPath) :: rs, st =>
      if path = rootPath ∨ hasSub path (rootPath ++ "/") = true then
        if hasSub (path.drop rootPath.length) "node_modules" = true then
          .ok (true, st)
        else
          match maybeSync fs cfg path nm (path.drop rootPath.length) st with
          | .error e => .error e
          | .ok st' => .ok (false, st')
      else scanRoots fs cfg path rs st

/-- Embedding of the module-level `ignored(path)` filter: resolve the path,
consult `ignoreCache`, otherwise scan the roots and record the result in
the cache.  The first component is the returned boolean (`.error ()` = an
exception escaped, in which case the cache line never ran); the second is
the module state afterwards (unchanged on an exception, since every throw
in `maybeSync` happens before its mutation). -/
def ignored (cfg : Config) (fs : FS) (path0 : String) (st : ClassifierState) :
    Except Unit Bool × ClassifierState :=
  let path := presolve path0
  match lookupS st.ignoreCache path with
  | some b => (.ok b, st)
  | none =>
      match scanRoots fs cfg path cfg.roots st with
      | .error _ => (.error (), st)
      | .ok (ig, st') => (.ok ig, { st' with ignoreCache := mapSet st'.ignoreCache path ig })

/-- Repeated invocations of `ignored` on the same path, threading the module
state (results discarded, as a caller that merely queries would). -/
def ignoredIter (cfg : Config) (fs : FS) (p : String) :
    Nat → ClassifierState → ClassifierState
  | 0, st => st
  | n + 1, st => ignoredIter cfg fs p n (ignored cfg fs p st).2

/-- Write a file: update the content and stat of the destination path,
leaving everything else untouched. -/
def fsWriteFile (fs : FS) (p data : String) : FS :=
  { fs with
    content := fun k => if k = p then some data else fs.content k,
    stat := fun k => if k = p then some ⟨true, 1⟩ else fs.stat k }

/-- One tick of the `fs.watchFile` poll callback registered by `maybeSync`:
`curr` is the fresh stat delivered to the listener (`none` models a falsy
argument); a file with zero remaining hard links counts as deleted and the
tick does nothing; otherwise `fs.copySync(source, localPath)` runs, any
exception being caught and reported (second component `true` =
`console.error` fired).  Nothing in the callback ever unregisters the
watcher, so the task keeps polling in every case. -/
def mirrorTick (curr : Option FStat) (fs : FS) (source localPath : String) :
    FS × Bool :=
  match curr with
  | none => (fs, false)
  | some c =>
      if c.nlink = 0 then (fs, false)
      else
        match fs.content source with
        | none => (fs, true)
        | some data => (fsWriteFile fs localPath data, false)

/-- Overlay loop of `FilterIgnoringWatchFileSystem`:
`for (const path of ignoredPaths) ts.set(path, 1)`. -/
def overlayTs (ignoredPaths : List String) (m : List (String × Nat)) :
    List (String × Nat) :=
  ignoredPaths.foldl (fun acc q => mapSet acc q 1) m

/-- The consumer-visible callback invocation; a `none` field models a JS
argument left `undefined`. -/
structure CbInvocation where
  err : Option String
  filesModified : Option (List String)
  dirsModified : Option (List String)
  missingModified : Option (List String)
  fileTimestamps : Option (List (String × Nat))
  dirTimestamps : Option (List (String × Nat))
  removedFiles : Option (List String)
  deriving DecidableEq, Repr

/-- The completion callback `FilterIgnoringWatchFileSystem.watch` hands to
the underlying primitive, expressed as the invocation it produces for the
consumer: on a non-null error it runs `return callback(err)` — only the
error is passed, the remaining parameters are left undefined; otherwise it
overlays the sentinel `1` for the ignored files and dirs and forwards all
arguments. -/
def proxyCallback (ignoredFiles ignoredDirs : List String) (err : Option String)
    (filesModified dirsModified missingModified : List String)
    (fileTimestamps dirTimestamps : List (String × Nat))
    (removedFiles : List String) : CbInvocation :=
  match err with
  | some e =>
      { err := some e, filesModified := none, dirsModified := none,
        missingModified := none, fileTimestamps := none, dirTimestamps := none,
        removedFiles := none }
  | none =>
      { err := none, filesModified := some filesModified,
        dirsModified := some dirsModified, missingModified := some missingModified,
        fileTimestamps := some (overlayTs ignoredFiles fileTimestamps),
        dirTimestamps := some (overlayTs ignoredDirs dirTimestamps),
        removedFiles := some removedFiles }

/-- The handle returned by the underlying `wfs.watch`: its timestamp
accessors, as functions of the underlying watcher's current state `σ`
(each call reads the primitive afresh).  `close`/`pause` are pure
delegation and carry no data relevant here. -/
structure UnderlyingWatcher (σ : Type) where
  getFileTs : σ → List (String × Nat)
  getContextTs : σ → List (String × Nat)

/-- The wrapped underlying watch file system: `watch` consumes the filtered
`files`, `dirs`, `missing` lists and returns a watcher handle. -/
structure UnderlyingWFS (σ : Type) where
  watch : List String → List String → List String → UnderlyingWatcher σ

/-- Embedding of `FilterIgnoringWatchFileSystem.watch` (the returned
handle): partition `files`/`dirs` with the classifier callback `ign` (in
this module the constructor argument is the module-level `ignored`
function), delegate only the non-ignored paths to the underlying
primitive, and return a handle whose accessors re-read the underlying
handle and overlay the sentinel for the ignored paths on every call. -/
def filterWatch {σ : Type} (ign : String → Bool) (wfs : UnderlyingWFS σ)
    (files dirs missing : List String) : UnderlyingWatcher σ :=
  let notIgnored := fun p => !(ign p)
  let ignoredFiles := files.filter ign
  let ignoredDirs := dirs.filter ign
  let watcher := wfs.watch (files.filter notIgnored) (dirs.filter notIgnored) missing
  { getFileTs := fun u => overlayTs ignoredFiles (watcher.getFileTs u),
    getContextTs := fun u => overlayTs ignoredDirs (watcher.getContextTs u) }

/-- Is `k` at or under directory `d`?  `FrontEndPlugin` paths are segment
lists over a flat file model (each entry one file). -/
def underDir (d k : List String) : Bool := d.isPrefixOf k

/-- `fs.existsSync(d)` over the flat model: some entry lies at or under
`d`. -/
def dirExists (d : List String) (fsm : List (List String × String)) : Bool :=
  fsm.any (fun e => underDir d e.1)

/-- `fs.removeSync(d)`: recursively delete everything at or under `d`. -/
def removeTree (d : List String) (fsm : List (List String × String)) :
    List (List String × String) :=
  fsm.filter (fun e => !underDir d e.1)

/-- `fs.copySync(src, dst)`: walk every entry at or under `src` and write
it to the corresponding path under `dst`, overwriting; destination entries
with no counterpart are untouched (copy, not mirror-with-deletion). -/
def copyTree (src dst : List String) (fsm : List (List String × String)) :
    List (List String × String) :=
  (fsm.filter (fun e => underDir src e.1)).foldl
    (fun acc e => mapSet acc (dst ++ e.1.drop src.length) e.2) fsm

/-- `FrontEndPlugin` instance state (the `_first` flag) together with the
filesystem it acts on. -/
structure PluginState where
  first : Bool
  fsm : List (List String × String)
  deriving DecidableEq, Repr

/-- Embedding of the `afterEmit` hook of `FrontEndPlugin`: bail when no
`staticDir` is configured; on the first emission remove a pre-existing
destination directory; then copy the build directory onto the
destination. -/
def frontEndEmit (buildDir : List String) (staticDir : Option (List String))
    (st : PluginState) : PluginState :=
  match staticDir with
  | none => st
  | some d =>
      let fs1 := if st.first && dirExists d st.fsm then removeTree d st.fsm else st.fsm
      { first := false, fsm := copyTree buildDir d fs1 }

/-! ### Concrete instances used by the witnesses and counterexamples -/

/-- A single root `A ↦ /r/a` whose external source dir is `/ext/A`. -/
def cfgC1 : Config := { roots := [("A", "/r/a")], watchedPackages := fun _ => "/ext/A" }

/-- A filesystem holding exactly the regular file `/x/r/a/f.js`; symlinks
are absent, so `realpathSync` is the identity on existing paths. -/
def fsC1 : FS :=
  { stat := fun p => if p = "/x/r/a/f.js" then some ⟨true, 1⟩ else none,
    realpath := fun p => some p,
    content := fun _ => none }

/-- A single root `A ↦ /src/A` whose external source dir is `/ext/A`. -/
def cfgC2 : Config := { roots := [("A", "/src/A")], watchedPackages := fun _ => "/ext/A" }

/-- An empty filesystem (no path exists). -/
def fsC2 : FS :=
  { stat := fun _ => none, realpath := fun p => some p, content := fun _ => none }

/-- A filesystem holding exactly the regular file `/src/A/lib/f.js`. -/
def fsC4 : FS :=
  { stat := fun p => if p = "/src/A/lib/f.js" then some ⟨true, 1⟩ else none,
    realpath := fun p => some p,
    content := fun _ => none }

/-- The module state after classifying `/src/A/lib/f.js` once against
`cfgC2`/`fsC4`: one cache entry and one mirror-task registration. -/
def stC4 : ClassifierState :=
  ⟨[("/src/A/lib/f.js", false)], [("/ext/A/lib/f.js", "/src/A/lib/f.js")]⟩

/-- A filesystem holding the directory `/src/A/sub` (not a regular file). -/
def fsC5 : FS :=
  { stat := fun p => if p = "/src/A/sub" then some ⟨false, 1⟩ else none,
    realpath := fun p => some p,
    content := fun _ => none }

/-- A filesystem where `/src/A/lib/x.js` is a symbolic link whose canonical
target is `/linked/A/lib/x.js`. -/
def fsC8 : FS :=
  { stat := fun p => if p = "/src/A/lib/x.js" then some ⟨true, 1⟩ else none,
    realpath := fun p => if p = "/src/A/lib/x.js" then some "/linked/A/lib/x.js" else some p,
    content := fun _ => none }

/-- A root `A ↦ /src/A` whose external source dir is `/linked/A`. -/
def cfgC8 : Config := { roots := [("A", "/src/A")], watchedPackages := fun _ => "/linked/A" }

/-- A filesystem where the mirror source `/linked/A/lib/x.js` holds
content `"DATA"`. -/
def fsC9 : FS :=
  { stat := fun p => if p = "/linked/A/lib/x.js" then some ⟨true, 1⟩ else none,
    realpath := fun p => some p,
    content := fun p => if p = "/linked/A/lib/x.js" then some "DATA" else none }

/-- The classification callback used by the watch-proxy witness: exactly
`ig.js` and `igd` are ignored. -/
def ignW : String → Bool := fun p => p == "ig.js" || p == "igd"

/-- A concrete underlying watch file system (state type `Unit`) reporting
fixed timestamps. -/
def wfsW : UnderlyingWFS Unit :=
  { watch := fun _ _ _ =>
      { getFileTs := fun _ => [("w.js", 42)],
        getContextTs := fun _ => [("wd2", 7)] } }

/-- The publish scenario of the spec: the destination pre-exists with
`old.txt`, the build output contains `a.js`. -/
def stC6 : PluginState :=
  ⟨true, [(["static", "old.txt"], "OLD"), (["build", "a.js"], "A")]⟩

/-! ### Association-list lemmas -/

theorem lookupS_mapSet {κ α : Type} [DecidableEq κ]
    (m : List (κ × α)) (k key : κ) (v : α) :
    lookupS (mapSet m k v) key = if k = key then some v else lookupS m key := by
  induction m with
  | nil => simp [mapSet, lookupS]
  | cons hd tl ih =>
      obtain ⟨k', w⟩ := hd
      by_cases hk : k' = k
      · subst hk
        by_cases hkey : k' = key <;> simp [mapSet, lookupS, hkey]
      · by_cases hkey : k' = key
        · subst hkey
          have hne : k ≠ k' := fun h => hk h.symm
          simp [mapSet, lookupS, hk, ih, hne]
        · simp [mapSet, lookupS, hk, hkey, ih]

theorem lookupS_some_mem {κ α : Type} [DecidableEq κ]
    (m : List (κ × α)) (key : κ) (v : α) (h : lookupS m key = some v) :
    (key, v) ∈ m := by
  induction m with
  | nil => simp [lookupS] at h
  | cons hd tl ih =>
      obtain ⟨k', w⟩ := hd
      by_cases hk : k' = key
      · subst hk
        simp [lookupS] at h
        simp [h]
      · simp [lookupS, hk] at h
        exact List.mem_cons_of_mem _ (ih h)

theorem lookupS_none_not_mem {κ α : Type} [DecidableEq κ]
    (m : List (κ × α)) (key : κ) (h : lookupS m key = none) :
    ∀ v : α, (key, v) ∉ m := by
  induction m with
  | nil => simp
  | cons hd tl ih =>
      obtain ⟨k', w⟩ := hd
      by_cases hk : k' = key
      · subst hk; simp [lookupS] at h
      · simp [lookupS, hk] at h
        intro v hv
        rcases List.mem_cons.mp hv with hv | hv
        · exact hk (congrArg Prod.fst hv).symm
        · exact ih h v hv

/-! ### Classifier lemmas -/

/-- A root whose path neither equals `p` nor occurs in `p` followed by the
separator is skipped by the scan. -/
theorem scanRoots_all_skip (fs : FS) (cfg : Config) (p : String)
    (roots : List (String × String)) (st : ClassifierState)
    (h : ∀ nm rp, (nm, rp) ∈ roots → p ≠ rp ∧ hasSub p (rp ++ "/") = false) :
    scanRoots fs cfg p roots st = .ok (true, st) := by
  induction roots with
  | nil => rfl
  | cons hd tl ih =>
      obtain ⟨nm, rp⟩ := hd
      have hh := h nm rp (List.mem_cons_self _ _)
      have htl : ∀ nm' rp', (nm', rp') ∈ tl → p ≠ rp' ∧ hasSub p (rp' ++ "/") = false :=
        fun nm' rp' hm => h nm' rp' (List.mem_cons_of_mem _ hm)
      simp [scanRoots, hh.1, hh.2, ih htl]

/-- A block of non-matching roots at the front of the table is skipped. -/
theorem scanRoots_append_skip (fs : FS) (cfg : Config) (p : String)
    (r₁ rs : List (String × String)) (st : ClassifierState)
    (h : ∀ nm rp, (nm, rp) ∈ r₁ → p ≠ rp ∧ hasSub p (rp ++ "/") = false) :
    scanRoots fs cfg p (r₁ ++ rs) st = scanRoots fs cfg p rs st := by
  induction r₁ with
  | nil => rfl
  | cons hd tl ih =>
      obtain ⟨nm, rp⟩ := hd
      have hh := h nm rp (List.mem_cons_self _ _)
      have htl : ∀ nm' rp', (nm', rp') ∈ tl → p ≠ rp' ∧ hasSub p (rp' ++ "/") = false :=
        fun nm' rp' hm => h nm' rp' (List.mem_cons_of_mem _ hm)
      simp [scanRoots, hh.1, hh.2, ih htl]

/-! ### Claim C1 -/

/-- Claim C1 counterexample: `/x/r/a/f.js` is outside the sole root `/r/a`
(it does not equal it and is not nested under `/r/a/`), yet `ignored`
returns `false`, because the containment test
`path.indexOf(rootPath + sep) !== -1` is a substring search that matches
`/r/a/` in the middle of the path. -/
theorem ignored_outside_root_cex :
    ("/x/r/a/f.js" : String) ≠ "/r/a" ∧
    startsWithS "/x/r/a/f.js" "/r/a/" = false ∧
    (ignored cfgC1 fsC1 "/x/r/a/f.js" st0).1 = .ok false := by decide

/-- Claim C1 (amended): for every uncached path that equals no root's
`rootPath` and does not contain any `rootPath + "/"` as a substring,
`ignored` returns `true` and only records the cache entry. -/
theorem ignored_outside_roots (cfg : Config) (fs : FS) (p : String)
    (st : ClassifierState)
    (hc : lookupS st.ignoreCache (presolve p) = none)
    (hroots : ∀ nm rp, (nm, rp) ∈ cfg.roots →
      presolve p ≠ rp ∧ hasSub (presolve p) (rp ++ "/") = false) :
    ignored cfg fs p st =
      (.ok true, { st with ignoreCache := mapSet st.ignoreCache (presolve p) true }) := by
  simp only [presolve] at hc hroots
  have h1 := scanRoots_all_skip fs cfg p cfg.roots st hroots
  simp [ignored, presolve, hc, h1]

/-- Witness for the amended C1 theorem at the concrete path `/q/w.js`. -/
theorem ignored_outside_roots_witness :
    ignored cfgC1 fsC1 "/q/w.js" st0 =
      (.ok true, { st0 with ignoreCache := mapSet st0.ignoreCache "/q/w.js" true }) :=
  ignored_outside_roots cfgC1 fsC1 "/q/w.js" st0 (by decide)
    (by
      intro nm rp hm
      simp [cfgC1] at hm
      rw [hm.2]
      exact ⟨by decide, by decide⟩)

/-! ### Claim C2 -/

/-- Claim C2 counterexample: `/src/A/node_modulesX.js` lies strictly inside
the root `/src/A` and its suffix `/node_modulesX.js` has no path segment
equal to `node_modules`, yet `ignored` returns `true`, because the
exclusion test `rest.indexOf('node_modules') === -1` is a substring
search. -/
theorem ignored_marker_cex :
    startsWithS "/src/A/node_modulesX.js" "/src/A/" = true ∧
    "node_modules" ∉ pathSegs ("/src/A/node_modulesX.js".drop ("/src/A" : String).length) ∧
    (ignored cfgC2 fsC2 "/src/A/node_modulesX.js" st0).1 = .ok true := by decide

/-- Claim C2 (amended): for an uncached path matched by a root (equality or
substring containment of `rootPath + "/"`), with every earlier root in the
table not matching: if the suffix past the root-path prefix contains
`node_modules` as a substring (not necessarily as a whole segment),
`ignored` returns `true`; if it does not and the mirror side effect
completes without throwing, `ignored` returns `false`. -/
theorem ignored_inside_root (cfg : Config) (fs : FS) (p : String)
    (st : ClassifierState) (r₁ r₂ : List (String × String)) (nm rp : String)
    (hroots : cfg.roots = r₁ ++ (nm, rp) :: r₂)
    (hskip : ∀ nm' rp', (nm', rp') ∈ r₁ →
      presolve p ≠ rp' ∧ hasSub (presolve p) (rp' ++ "/") = false)
    (hmatch : presolve p = rp ∨ hasSub (presolve p) (rp ++ "/") = true)
    (hc : lookupS st.ignoreCache (presolve p) = none) :
    (hasSub ((presolve p).drop rp.length) "node_modules" = true →
      ignored cfg fs p st =
        (.ok true, { st with ignoreCache := mapSet st.ignoreCache (presolve p) true })) ∧
    (∀ st', hasSub ((presolve p).drop rp.length) "node_modules" = false →
      maybeSync fs cfg (presolve p) nm ((presolve p).drop rp.length) st = .ok st' →
      ignored cfg fs p st =
        (.ok false, { st' with ignoreCache := mapSet st'.ignoreCache (presolve p) false })) := by
  simp only [presolve] at hskip hmatch hc ⊢
  have hsk := scanRoots_append_skip fs cfg p r₁ ((nm, rp) :: r₂) st hskip
  constructor
  · intro hnm
    have h1 : scanRoots fs cfg p cfg.roots st = .ok (true, st) := by
      rw [hroots, hsk]
      simp [scanRoots, hmatch, hnm]
    simp [ignored, presolve, hc, h1]
  · intro st' hnm hms
    have h1 : scanRoots fs cfg p cfg.roots st = .ok (false, st') := by
      rw [hroots, hsk]
      simp [scanRoots, hmatch, hnm, hms]
    simp [ignored, presolve, hc, h1]

/-- Witness for the amended C2 theorem: the `node_modules`-substring branch
at the concrete path `/src/A/node_modulesX.js`. -/
theorem ignored_inside_root_witness :
    ignored cfgC2 fsC2 "/src/A/node_modulesX.js" st0 =
      (.ok true,
        { st0 with ignoreCache := mapSet st0.ignoreCache "/src/A/node_modulesX.js" true }) :=
  (ignored_inside_root cfgC2 fsC2 "/src/A/node_modulesX.js" st0 [] [] "A" "/src/A"
      rfl (by intro nm' rp' hm; cases hm) (Or.inr (by decide)) (by decide)).1
    (by decide)

/-! ### Claim C5 -/

/-- Claim C5 counterexample: for a `localPath` that does not exist on disk,
`maybeSync` does not return cleanly — `fs.statSync` throws and the
exception escapes (the claim asserts a silent return for such paths). -/
theorem maybeSync_missing_cex :
    maybeSync fsC2 cfgC2 "/src/A/f.js" "A" "/f.js" st0 = .error () := by decide

/-- Claim C5 (amended): if `localPath` exists but is not a regular file
(e.g. a directory), `maybeSync` returns without action and without error
and creates no mirror task; if `localPath` does not exist, the
`fs.statSync` exception propagates out of `maybeSync` (and still no task
is created). -/
theorem maybeSync_not_regular_file (fs : FS) (cfg : Config)
    (lp nm rest : String) (st : ClassifierState) (stt : FStat) :
    (fs.stat lp = some stt → stt.isFile = false →
      maybeSync fs cfg lp nm rest st = .ok st) ∧
    (fs.stat lp = none → maybeSync fs cfg lp nm rest st = .error ()) := by
  constructor
  · intro h1 h2
    simp [maybeSync, h1, h2]
  · intro h1
    simp [maybeSync, h1]

/-- Witness for the amended C5 theorem: the directory `/src/A/sub` is
silently skipped. -/
theorem maybeSync_not_regular_file_witness :
    maybeSync fsC5 cfgC2 "/src/A/sub" "A" "/sub" st0 = .ok st0 :=
  (maybeSync_not_regular_file fsC5 cfgC2 "/src/A/sub" "A" "/sub" st0 ⟨false, 1⟩).1
    (by decide) rfl

/-! ### Claim C8 -/

/-- Claim C8: for an existing regular file whose canonical form equals the
canonical form of its computed source path, `maybeSync` creates no mirror
task and leaves the state untouched. -/
theorem maybeSync_same_canonical (fs : FS) (cfg : Config)
    (lp nm rest : String) (st : ClassifierState) (stt : FStat) (r : String)
    (h1 : fs.stat lp = some stt) (h2 : stt.isFile = true)
    (h3 : fs.realpath (pjoin (cfg.watchedPackages nm) rest) = some r)
    (h4 : fs.realpath lp = some r) :
    maybeSync fs cfg lp nm rest st = .ok st := by
  simp [maybeSync, h1, h2, h3, h4]

/-- Witness for C8: `/src/A/lib/x.js` is a symlink onto
`/linked/A/lib/x.js`, so no task is registered (the task list stays
empty). -/
theorem maybeSync_same_canonical_witness :
    maybeSync fsC8 cfgC8 "/src/A/lib/x.js" "A" "/lib/x.js" st0 = .ok st0 ∧
    st0.watchers.length = 0 :=
  ⟨maybeSync_same_canonical fsC8 cfgC8 "/src/A/lib/x.js" "A" "/lib/x.js" st0
      ⟨true, 1⟩ "/linked/A/lib/x.js" (by decide) rfl (by decide) (by decide),
    rfl⟩

/-! ### Claim C4 -/

/-- A successful `maybeSync` never touches the cache and registers at most
one new mirror task. -/
theorem maybeSync_ok_state (fs : FS) (cfg : Config) (lp nm rest : String)
    (st st' : ClassifierState) (h : maybeSync fs cfg lp nm rest st = .ok st') :
    st'.ignoreCache = st.ignoreCache ∧
    st'.watchers.length ≤ st.watchers.length + 1 := by
  unfold maybeSync at h
  split at h
  · simp at h
  · split at h
    · injection h with h
      subst h
      exact ⟨rfl, Nat.le_succ _⟩
    · split at h
      · simp at h
      · split at h
        · simp at h
        · split at h
          · injection h with h
            subst h
            exact ⟨rfl, Nat.le_succ _⟩
          · injection h with h
            subst h
            simp

/-- A successful scan never touches the cache and registers at most one new
mirror task. -/
theorem scanRoots_ok_state (fs : FS) (cfg : Config) (p : String)
    (roots : List (String × String)) (st : ClassifierState)
    (b : Bool) (st' : ClassifierState)
    (h : scanRoots fs cfg p roots st = .ok (b, st')) :
    st'.ignoreCache = st.ignoreCache ∧
    st'.watchers.length ≤ st.watchers.length + 1 := by
  induction roots with
  | nil =>
      simp [scanRoots] at h
      rw [← h.2]
      exact ⟨rfl, Nat.le_succ _⟩
  | cons hd tl ih =>
      obtain ⟨nm, rp⟩ := hd
      unfold scanRoots at h
      split at h
      · split at h
        · injection h with h
          rw [← (Prod.mk.injEq _ _ _ _ |>.mp h).2]
          exact ⟨rfl, Nat.le_succ _⟩
        · split at h
          · simp at h
          · rename_i st'' hms
            injection h with h
            rw [← (Prod.mk.injEq _ _ _ _ |>.mp h).2]
            exact maybeSync_ok_state fs cfg p nm (p.drop rp.length) st st'' hms
      · exact ih h

/-- If a run of `ignored` on a state makes no further change to the state,
iterating it any number of times is the identity. -/
theorem ignoredIter_fixed (cfg : Config) (fs : FS) (p : String)
    (st : ClassifierState) (h : (ignored cfg fs p st).2 = st) :
    ∀ n, ignoredIter cfg fs p n st = st := by
  intro n
  induction n with
  | zero => rfl
  | succ n ih =>
      show ignoredIter cfg fs p n (ignored cfg fs p st).2 = st
      rw [h, ih]

/-- A cached path is answered from the cache with no state change. -/
theorem ignored_cached (cfg : Config) (fs : FS) (p : String)
    (st : ClassifierState) (b : Bool)
    (hc : lookupS st.ignoreCache (presolve p) = some b) :
    ignored cfg fs p st = (.ok b, st) := by
  unfold ignored
  simp only [presolve] at hc ⊢
  rw [hc]

/-- Claim C4: classification is idempotent.  If the first call on a path
returns a boolean and a new module state, then every subsequent call on
that path returns the same boolean from the cache and changes nothing, any
number of repeated calls leaves the state fixed, and the whole sequence
registers at most one mirror task (the side effect ran at most once). -/
theorem ignored_idempotent (cfg : Config) (fs : FS) (p : String)
    (st : ClassifierState) (b : Bool) (st₁ : ClassifierState)
    (h : ignored cfg fs p st = (.ok b, st₁)) :
    ignored cfg fs p st₁ = (.ok b, st₁) ∧
    (∀ n, ignoredIter cfg fs p n st₁ = st₁) ∧
    st₁.watchers.length ≤ st.watchers.length + 1 := by
  unfold ignored at h
  simp only [presolve] at h
  cases hcl : lookupS st.ignoreCache p with
  | some c =>
      have hcl' : lookupS st.ignoreCache (presolve p) = some c := hcl
      have h0 := ignored_cached cfg fs p st c hcl'
      unfold ignored at h0
      simp only [presolve] at h0
      rw [h0] at h
      obtain ⟨hb, hst⟩ := Prod.mk.injEq _ _ _ _ |>.mp h
      injection hb with hb
      subst hb
      subst hst
      have hfix := ignored_cached cfg fs p st c hcl'
      exact ⟨hfix, ignoredIter_fixed cfg fs p st (by rw [hfix]),
        Nat.le_succ _⟩
  | none =>
      simp only [hcl] at h
      cases hsc : scanRoots fs cfg p cfg.roots st with
      | error e => simp [hsc] at h
      | ok pr =>
          obtain ⟨ig, st'⟩ := pr
          simp only [hsc] at h
          obtain ⟨hb, hst⟩ := Prod.mk.injEq _ _ _ _ |>.mp h
          injection hb with hb
          subst hb
          have hstate := scanRoots_ok_state fs cfg p cfg.roots st ig st' hsc
          have hcache : lookupS st₁.ignoreCache (presolve p) = some ig := by
            rw [← hst]
            simp [presolve, lookupS_mapSet]
          have hfix := ignored_cached cfg fs p st₁ ig hcache
          refine ⟨hfix, ignoredIter_fixed cfg fs p st₁ (by rw [hfix]), ?_⟩
          rw [← hst]
          exact hstate.2

/-- Witness for C4: classifying `/src/A/lib/f.js` once registers exactly
one mirror task; one hundred further calls return the cached result and
leave the state — in particular the task list — untouched. -/
theorem ignored_idempotent_witness :
    ignored cfgC2 fsC4 "/src/A/lib/f.js" stC4 = (.ok false, stC4) ∧
    ignoredIter cfgC2 fsC4 "/src/A/lib/f.js" 100 stC4 = stC4 ∧
    stC4.watchers.length ≤ st0.watchers.length + 1 := by
  have h : ignored cfgC2 fsC4 "/src/A/lib/f.js" st0 = (.ok false, stC4) := by decide
  have hall := ignored_idempotent cfgC2 fsC4 "/src/A/lib/f.js" st0 false stC4 h
  exact ⟨hall.1, hall.2.1 100, hall.2.2⟩

/-! ### Claim C10 -/

/-- Claim C10: whenever classification throws (as `fs.statSync` does for a
path inside a root, without the exclusion marker, that does not exist on
disk), the exception escapes `ignored` and the module state — the
classification cache in particular — is left completely unchanged, so a
later call re-runs classification. -/
theorem ignored_error_state (cfg : Config) (fs : FS) (p : String)
    (st : ClassifierState)
    (h : (ignored cfg fs p st).1 = .error ()) :
    ignored cfg fs p st = (.error (), st) := by
  unfold ignored at h ⊢
  simp only [presolve] at h ⊢
  cases hcl : lookupS st.ignoreCache p with
  | some b => simp [hcl] at h
  | none =>
      simp only [hcl] at h ⊢
      cases hsc : scanRoots fs cfg p cfg.roots st with
      | error e => simp [hsc]
      | ok pr => simp [hsc] at h

/-- Witness for C10: `/src/A/f.js` lies inside the root `/src/A`, has no
`node_modules` segment, and does not exist on the (empty) disk; the
classification throws and the state is unchanged. -/
theorem ignored_error_state_witness :
    ignored cfgC2 fsC2 "/src/A/f.js" st0 = (.error (), st0) :=
  ignored_error_state cfgC2 fsC2 "/src/A/f.js" st0 (by decide)

/-! ### Claim C3 -/

/-- Looking up a path in an overlaid timestamp map: overlaid paths read the
sentinel `1`, all others read the underlying value. -/
theorem lookupS_overlayTs (l : List String) (m : List (String × Nat)) (p : String) :
    lookupS (overlayTs l m) p = if p ∈ l then some 1 else lookupS m p := by
  induction l generalizing m with
  | nil => simp [overlayTs]
  | cons q t ih =>
      simp only [overlayTs, List.foldl_cons] at ih ⊢
      rw [ih (mapSet m q 1)]
      by_cases hq : p ∈ t
      · simp [hq]
      · by_cases hpq : q = p
        · subst hpq
          simp [hq, lookupS_mapSet]
        · have hne : p ≠ q := fun hcon => hpq hcon.symm
          simp [hq, hpq, hne, lookupS_mapSet, List.mem_cons]

/-- Claim C3: after a watch callback completes without error, and on every
call to the returned handle's accessors, the timestamp maps carry the
sentinel `1` for every ignored path of the original `files`/`dirs` lists
and the underlying watcher's value for every non-ignored path; the handle
accessors recompute the overlay from the underlying handle's fresh answer
(an arbitrary underlying state `u`) on each call. -/
theorem filterWatch_overlay {σ : Type} (ign : String → Bool)
    (wfs : UnderlyingWFS σ) (files dirs missing : List String) (u : σ)
    (p : String) (fM dM mM rF : List String)
    (fTs dTs : List (String × Nat)) :
    (p ∈ files → ign p = true →
      lookupS ((filterWatch ign wfs files dirs missing).getFileTs u) p = some 1) ∧
    (ign p = false →
      lookupS ((filterWatch ign wfs files dirs missing).getFileTs u) p =
        lookupS ((wfs.watch (files.filter fun q => !ign q)
          (dirs.filter fun q => !ign q) missing).getFileTs u) p) ∧
    (p ∈ dirs → ign p = true →
      lookupS ((filterWatch ign wfs files dirs missing).getContextTs u) p = some 1) ∧
    (ign p = false →
      lookupS ((filterWatch ign wfs files dirs missing).getContextTs u) p =
        lookupS ((wfs.watch (files.filter fun q => !ign q)
          (dirs.filter fun q => !ign q) missing).getContextTs u) p) ∧
    (p ∈ files → ign p = true →
      (proxyCallback (files.filter ign) (dirs.filter ign) none
          fM dM mM fTs dTs rF).fileTimestamps.map (fun m => lookupS m p) =
        some (some 1)) ∧
    (ign p = false →
      (proxyCallback (files.filter ign) (dirs.filter ign) none
          fM dM mM fTs dTs rF).fileTimestamps.map (fun m => lookupS m p) =
        some (lookupS fTs p)) ∧
    (p ∈ dirs → ign p = true →
      (proxyCallback (files.filter ign) (dirs.filter ign) none
          fM dM mM fTs dTs rF).dirTimestamps.map (fun m => lookupS m p) =
        some (some 1)) ∧
    (ign p = false →
      (proxyCallback (files.filter ign) (dirs.filter ign) none
          fM dM mM fTs dTs rF).dirTimestamps.map (fun m => lookupS m p) =
        some (lookupS dTs p)) := by
  refine ⟨?_, ?_, ?_, ?_, ?_, ?_, ?_, ?_⟩
  · intro hp hi
    simp [filterWatch, lookupS_overlayTs, List.mem_filter, hp, hi]
  · intro hi
    simp [filterWatch, lookupS_overlayTs, List.mem_filter, hi]
  · intro hp hi
    simp [filterWatch, lookupS_overlayTs, List.mem_filter, hp, hi]
  · intro hi
    simp [filterWatch, lookupS_overlayTs, List.mem_filter, hi]
  · intro hp hi
    simp [proxyCallback, lookupS_overlayTs, List.mem_filter, hp, hi]
  · intro hi
    simp [proxyCallback, lookupS_overlayTs, List.mem_filter, hi]
  · intro hp hi
    simp [proxyCallback, lookupS_overlayTs, List.mem_filter, hp, hi]
  · intro hi
    simp [proxyCallback, lookupS_overlayTs, List.mem_filter, hi]

/-- Witness for C3: with `ig.js` ignored and `w.js` watched, the handle
accessor reports the sentinel for `ig.js` and the underlying value `42`
for `w.js`. -/
theorem filterWatch_overlay_witness :
    lookupS ((filterWatch ignW wfsW ["ig.js", "w.js"] ["wd2", "igd"] []).getFileTs ()) "ig.js" =
      some 1 ∧
    lookupS ((filterWatch ignW wfsW ["ig.js", "w.js"] ["wd2", "igd"] []).getFileTs ()) "w.js" =
      lookupS ((wfsW.watch (["ig.js", "w.js"].filter fun q => !ignW q)
        (["wd2", "igd"].filter fun q => !ignW q) []).getFileTs ()) "w.js" :=
  ⟨(filterWatch_overlay ignW wfsW ["ig.js", "w.js"] ["wd2", "igd"] [] () "ig.js"
      [] [] [] [] [] []).1 (by decide) (by decide),
    (filterWatch_overlay ignW wfsW ["ig.js", "w.js"] ["wd2", "igd"] [] () "w.js"
      [] [] [] [] [] []).2.1 (by decide)⟩

/-! ### Claim C7 -/

/-- Claim C7 counterexample: when the underlying callback reports an error,
the accompanying arguments are not forwarded verbatim — the consumer
receives only the error, the other parameters being left undefined. -/
theorem proxyCallback_error_cex :
    (proxyCallback [] [] (some "boom") ["f.js"] [] [] [("x", 5)] [("y", 7)] []).err =
      some "boom" ∧
    (proxyCallback [] [] (some "boom") ["f.js"] [] [] [("x", 5)] [("y", 7)] []).filesModified ≠
      some ["f.js"] ∧
    (proxyCallback [] [] (some "boom") ["f.js"] [] [] [("x", 5)] [("y", 7)] []).fileTimestamps ≠
      some [("x", 5)] := by decide

/-- Claim C7 (amended): on a non-null error the proxy immediately invokes
the consumer callback with that error unchanged as the sole argument —
whatever the accompanying arguments were, they are not forwarded (the
consumer sees them as undefined) and no sentinel overlay is applied (no
timestamp map is passed at all). -/
theorem proxyCallback_error (ignoredFiles ignoredDirs : List String)
    (e : String) (fM dM mM : List String)
    (fTs dTs : List (String × Nat)) (rF : List String) :
    proxyCallback ignoredFiles ignoredDirs (some e) fM dM mM fTs dTs rF =
      { err := some e, filesModified := none, dirsModified := none,
        missingModified := none, fileTimestamps := none, dirTimestamps := none,
        removedFiles := none } := rfl

/-! ### Claim C9 -/

/-- Claim C9: on a mirror poll tick, a falsy stat or a zero hard-link count
means no copy and no error; otherwise the source content fully overwrites
`localPath`; a copy failure is caught and reported (`console.error`) while
the filesystem is untouched, and a later tick after the source is restored
still succeeds. -/
theorem mirrorTick_spec (fs : FS) (source localPath : String)
    (c : FStat) (d : String) :
    (mirrorTick none fs source localPath = (fs, false)) ∧
    (c.nlink = 0 → mirrorTick (some c) fs source localPath = (fs, false)) ∧
    (c.nlink ≠ 0 → fs.content source = some d →
      (mirrorTick (some c) fs source localPath).1.content localPath = some d ∧
      (mirrorTick (some c) fs source localPath).2 = false) ∧
    (c.nlink ≠ 0 → fs.content source = none →
      mirrorTick (some c) fs source localPath = (fs, true)) ∧
    (c.nlink ≠ 0 → fs.content source = none →
      (mirrorTick (some c)
        (fsWriteFile (mirrorTick (some c) fs source localPath).1 source d)
        source localPath).1.content localPath = some d) := by
  refine ⟨rfl, ?_, ?_, ?_, ?_⟩
  · intro h
    simp [mirrorTick, h]
  · intro h hc
    simp [mirrorTick, h, hc, fsWriteFile]
  · intro h hc
    simp [mirrorTick, h, hc]
  · intro h hc
    simp [mirrorTick, h, hc, fsWriteFile]

/-- Witness for C9: a failing tick (source missing) reports the error and
leaves the filesystem unchanged; once the source carries `"DATA"`, a tick
copies it onto the destination. -/
theorem mirrorTick_spec_witness :
    mirrorTick (some ⟨true, 1⟩) fsC2 "/linked/A/lib/x.js" "/src/A/lib/x.js" =
      (fsC2, true) ∧
    (mirrorTick (some ⟨true, 1⟩) fsC9 "/linked/A/lib/x.js" "/src/A/lib/x.js").1.content
      "/src/A/lib/x.js" = some "DATA" :=
  ⟨(mirrorTick_spec fsC2 "/linked/A/lib/x.js" "/src/A/lib/x.js" ⟨true, 1⟩ "DATA").2.2.2.1
      (by decide) rfl,
    ((mirrorTick_spec fsC9 "/linked/A/lib/x.js" "/src/A/lib/x.js" ⟨true, 1⟩ "DATA").2.2.1
      (by decide) rfl).1⟩

/-! ### Claim C6 -/

theorem underDir_iff (d k : List String) : underDir d k = true ↔ d <+: k :=
  List.isPrefixOf_iff_prefix

theorem eq_append_of_underDir (d k : List String) (h : underDir d k = true) :
    d ++ k.drop d.length = k :=
  List.prefix_iff_eq_append.mp ((underDir_iff d k).mp h)

/-- Two directories neither of which contains the other have no common
member: a path under `b` is not under `d`. -/
theorem not_underDir_of_disjoint (b d k : List String)
    (hdb : underDir d b = false) (hbd : underDir b d = false)
    (hk : underDir b k = true) : underDir d k = false := by
  cases hdk : underDir d k with
  | false => rfl
  | true =>
      exfalso
      have h1 := (underDir_iff d k).mp hdk
      have h2 := (underDir_iff b k).mp hk
      rcases List.prefix_or_prefix_of_prefix h1 h2 with h3 | h3
      · rw [(underDir_iff d b).mpr h3] at hdb
        cases hdb
      · rw [(underDir_iff b d).mpr h3] at hbd
        cases hbd

theorem lookupS_removeTree (d k : List String)
    (fsm : List (List String × String)) :
    lookupS (removeTree d fsm) k =
      if underDir d k = true then none else lookupS fsm k := by
  induction fsm with
  | nil => simp [removeTree, lookupS]
  | cons e t ih =>
      obtain ⟨k₀, v⟩ := e
      by_cases h0 : underDir d k₀ = true
      · have hstep : removeTree d ((k₀, v) :: t) = removeTree d t := by
          simp [removeTree, List.filter_cons, h0]
        rw [hstep, ih]
        by_cases hk : k₀ = k
        · subst hk
          rw [if_pos h0, if_pos h0]
        · simp [lookupS, hk]
      · have hstep : removeTree d ((k₀, v) :: t) = (k₀, v) :: removeTree d t := by
          simp [removeTree, List.filter_cons, h0]
        rw [hstep]
        by_cases hk : k₀ = k
        · subst hk
          simp [lookupS, h0]
        · simp [lookupS, hk, ih]

/-- If nothing exists under `d`, any lookup under `d` misses. -/
theorem lookupS_none_of_not_dirExists (d k : List String)
    (fsm : List (List String × String))
    (h : dirExists d fsm = false) (hk : underDir d k = true) :
    lookupS fsm k = none := by
  induction fsm with
  | nil => rfl
  | cons e t ih =>
      obtain ⟨k₀, v⟩ := e
      simp only [dirExists, List.any_cons, Bool.or_eq_false_iff] at h
      have hk0 : k₀ ≠ k := by
        intro he
        subst he
        rw [hk] at h
        exact Bool.true_eq_false.mp h.1
      simp only [lookupS, hk0, if_false]
      exact ih h.2

/-- Folding `mapSet` writes over a list touching only other keys leaves a
lookup unchanged. -/
theorem foldl_mapSet_of_ne {κ α : Type} [DecidableEq κ] (g : κ × α → κ)
    (l m : List (κ × α)) (key : κ) (h : ∀ e ∈ l, g e ≠ key) :
    lookupS (l.foldl (fun acc e => mapSet acc (g e) e.2) m) key =
      lookupS m key := by
  induction l generalizing m with
  | nil => rfl
  | cons a t ih =>
      simp only [List.foldl_cons]
      rw [ih (mapSet m (g a) a.2) (fun e he => h e (List.mem_cons_of_mem _ he))]
      rw [lookupS_mapSet]
      simp [h a (List.mem_cons_self _ _)]

/-- Folding `mapSet` writes over a list in which exactly one entry `e₀`
targets `key` makes a lookup of `key` return that entry's value. -/
theorem foldl_mapSet_of_uniq {κ α : Type} [DecidableEq κ] (g : κ × α → κ)
    (l : List (κ × α)) (m : List (κ × α)) (key : κ) (e₀ : κ × α)
    (he : e₀ ∈ l) (hg : g e₀ = key)
    (huniq : ∀ e ∈ l, g e = key → e = e₀) :
    lookupS (l.foldl (fun acc e => mapSet acc (g e) e.2) m) key =
      some e₀.2 := by
  revert he huniq
  induction l generalizing m with
  | nil =>
      intro he _
      cases he
  | cons a t ih =>
      intro he huniq
      simp only [List.foldl_cons]
      by_cases hmem : e₀ ∈ t
      · exact ih _ hmem (fun e he' hge => huniq e (List.mem_cons_of_mem _ he') hge)
      · have ha : a = e₀ := by
          rcases List.mem_cons.mp he with h | h
          · exact h.symm
          · exact absurd h hmem
        have hne : ∀ e ∈ t, g e ≠ key := by
          intro e he' hge
          exact hmem ((huniq e (List.mem_cons_of_mem _ he') hge) ▸ he')
        rw [foldl_mapSet_of_ne g t _ key hne]
        subst ha
        rw [lookupS_mapSet]
        simp [hg]

/-- In a list with no duplicate keys, two entries with the same key are the
same entry. -/
theorem nodup_keys_entry_eq {κ α : Type} [DecidableEq κ]
    (l : List (κ × α)) (hnd : (l.map Prod.fst).Nodup) (e e' : κ × α)
    (he : e ∈ l) (he' : e' ∈ l) (hk : e.1 = e'.1) : e = e' := by
  induction l with
  | nil => cases he
  | cons a t ih =>
      simp only [List.map_cons, List.nodup_cons] at hnd
      rcases List.mem_cons.mp he with rfl | he2
      · rcases List.mem_cons.mp he' with rfl | he2'
        · rfl
        · exact absurd (hk ▸ List.mem_map_of_mem Prod.fst he2') hnd.1
      · rcases List.mem_cons.mp he' with rfl | he2'
        · exact absurd (hk ▸ List.mem_map_of_mem Prod.fst he2) hnd.1
        · exact ih hnd.2 he2 he2'

/-- Copying a tree places every source entry at its destination
counterpart, provided keys are duplicate-free. -/
theorem lookupS_copyTree_src (src dst : List String)
    (fsm : List (List String × String))
    (hnd : (fsm.map Prod.fst).Nodup) (s : List String) (v : String)
    (hs : underDir src s = true) (hl : lookupS fsm s = some v) :
    lookupS (copyTree src dst fsm) (dst ++ s.drop src.length) = some v := by
  have hmemfsm : (s, v) ∈ fsm := lookupS_some_mem fsm s v hl
  have hmem : (s, v) ∈ fsm.filter (fun e => underDir src e.1) := by
    rw [List.mem_filter]
    exact ⟨hmemfsm, hs⟩
  have huniq : ∀ e ∈ fsm.filter (fun e => underDir src e.1),
      dst ++ e.1.drop src.length = dst ++ s.drop src.length → e = (s, v) := by
    intro e hef hge
    have hef2 := List.mem_filter.mp hef
    have hdrop : e.1.drop src.length = s.drop src.length :=
      List.append_cancel_left hge
    have hkey : e.1 = s := by
      have h1 := eq_append_of_underDir src e.1 hef2.2
      have h2 := eq_append_of_underDir src s hs
      rw [← h1, hdrop, h2]
    exact nodup_keys_entry_eq fsm hnd e (s, v) hef2.1 hmemfsm hkey
  have := foldl_mapSet_of_uniq (fun e => dst ++ e.1.drop src.length)
    (fsm.filter (fun e => underDir src e.1)) fsm (dst ++ s.drop src.length)
    (s, v) hmem rfl huniq
  simpa [copyTree] using this

/-- Copying a tree leaves untouched every key whose source counterpart is
absent. -/
theorem lookupS_copyTree_nosrc (src dst : List String)
    (fsm : List (List String × String)) (k : List String)
    (hno : lookupS fsm (src ++ k.drop dst.length) = none) :
    lookupS (copyTree src dst fsm) k = lookupS fsm k := by
  have hne : ∀ e ∈ fsm.filter (fun e => underDir src e.1),
      dst ++ e.1.drop src.length ≠ k := by
    intro e hef hge
    have hef2 := List.mem_filter.mp hef
    have hkey : e.1 = src ++ k.drop dst.length := by
      have h1 := eq_append_of_underDir src e.1 hef2.2
      have h2 : k.drop dst.length = e.1.drop src.length := by
        rw [← hge, List.drop_left]
      rw [h2, h1]
    have hnm := lookupS_none_not_mem fsm (src ++ k.drop dst.length) hno e.2
    rw [← hkey] at hnm
    exact hnm hef2.1
  have := foldl_mapSet_of_ne (fun e => dst ++ e.1.drop src.length)
    (fsm.filter (fun e => underDir src e.1)) fsm k hne
  simpa [copyTree] using this

/-- Claim C6: `FrontEndPlugin` behaviour under the `afterEmit` hook.  With
no destination configured, each invocation is a no-op.  With a destination
`d` disjoint from the build dir `b`: the `_first` flag drops after the
invocation; every build entry is copied onto its destination counterpart,
overwriting, on every invocation; on a first invocation, destination
entries with no build counterpart are gone afterwards (the pre-existing
destination was removed before the copy); on a later invocation such stray
entries survive unchanged. -/
theorem frontEndEmit_spec (b d : List String) (st : PluginState)
    (hnd : (st.fsm.map Prod.fst).Nodup)
    (hdb : underDir d b = false) (hbd : underDir b d = false) :
    (frontEndEmit b none st = st) ∧
    ((frontEndEmit b (some d) st).first = false) ∧
    (∀ s v, underDir b s = true → lookupS st.fsm s = some v →
      lookupS (frontEndEmit b (some d) st).fsm (d ++ s.drop b.length) = some v) ∧
    (st.first = true → ∀ k, underDir d k = true →
      lookupS st.fsm (b ++ k.drop d.length) = none →
      lookupS (frontEndEmit b (some d) st).fsm k = none) ∧
    (st.first = false → ∀ k, underDir d k = true →
      lookupS st.fsm (b ++ k.drop d.length) = none →
      lookupS (frontEndEmit b (some d) st).fsm k = lookupS st.fsm k) := by
  refine ⟨rfl, by simp [frontEndEmit], ?_, ?_, ?_⟩
  · -- build entries land at their counterpart on every invocation
    intro s v hs hl
    by_cases hcond : (st.first && dirExists d st.fsm) = true
    · have hnd1 : ((removeTree d st.fsm).map Prod.fst).Nodup :=
        hnd.sublist ((List.filter_sublist st.fsm).map Prod.fst)
      have hl1 : lookupS (removeTree d st.fsm) s = some v := by
        rw [lookupS_removeTree, not_underDir_of_disjoint b d s hdb hbd hs]
        exact hl
      simp only [frontEndEmit, hcond, if_true]
      exact lookupS_copyTree_src b d (removeTree d st.fsm) hnd1 s v hs hl1
    · simp only [frontEndEmit, hcond, if_false]
      exact lookupS_copyTree_src b d st.fsm hnd s v hs hl
  · -- first invocation: stale destination entries are removed
    intro hfirst k hk hno
    by_cases hde : dirExists d st.fsm = true
    · have hcond : (st.first && dirExists d st.fsm) = true := by
        rw [hfirst, hde]; rfl
      have hno1 : lookupS (removeTree d st.fsm) (b ++ k.drop d.length) = none := by
        rw [lookupS_removeTree]
        split
        · rfl
        · exact hno
      simp only [frontEndEmit, hcond, if_true]
      rw [lookupS_copyTree_nosrc b d (removeTree d st.fsm) k hno1]
      rw [lookupS_removeTree, hk]
      rfl
    · have hcond : (st.first && dirExists d st.fsm) = false := by
        rw [hfirst]
        simp only [Bool.true_and]
        exact Bool.not_eq_true _ |>.mp hde
      simp [frontEndEmit, hcond]
      rw [lookupS_copyTree_nosrc b d st.fsm k hno]
      exact lookupS_none_of_not_dirExists d k st.fsm
        (Bool.not_eq_true _ |>.mp hde) hk
  · -- later invocations: stray destination entries survive
    intro hfirst k hk hno
    have hcond : (st.first && dirExists d st.fsm) = false := by
      rw [hfirst]; rfl
    simp [frontEndEmit, hcond]
    exact lookupS_copyTree_nosrc b d st.fsm k hno

/-- Witness for C6, following the spec's publish scenario: the destination
pre-exists with `old.txt`, the build output holds `a.js` with content
`"A"`; after a first emission the destination carries `a.js` with that
content and `old.txt` is gone. -/
theorem frontEndEmit_spec_witness :
    lookupS (frontEndEmit ["build"] (some ["static"]) stC6).fsm
      ["static", "a.js"] = some "A" ∧
    lookupS (frontEndEmit ["build"] (some ["static"]) stC6).fsm
      ["static", "old.txt"] = none :=
  ⟨(frontEndEmit_spec ["build"] ["static"] stC6 (by decide) (by decide)
      (by decide)).2.2.1 ["build", "a.js"] "A" (by decide) (by decide),
    (frontEndEmit_spec ["build"] ["static"] stC6 (by decide) (by decide)
      (by decide)).2.2.2.1 rfl ["static", "old.txt"] (by decide) (by decide)⟩

end Webpack
